import Mathlib

/-!
Shallow embedding of the techform reconciliation pipeline
(src/src/utils/parseExcel.ts, src/src/utils/extractAirgap.ts,
src/src/components/AdvancedPartScatterChart.tsx, src/src/utils/constants.ts).

Numbers are modelled as exact rationals; JavaScript strings are Lean
strings manipulated through their character lists.  Fallible steps
return Option.  Debug logging, raw-row bookkeeping and rendering code
are not modelled; the data-transforming core is translated line by
line from the source.
-/

namespace Techform

/-- Whitespace test used by the JavaScript trim in the source. -/
def wsp (c : Char) : Bool := c.isWhitespace

/-- Character-list trim: drop whitespace from both ends (JS String.trim). -/
def trimChars (l : List Char) : List Char :=
  ((l.dropWhile wsp).reverse.dropWhile wsp).reverse

/-- String trim used throughout the parsing code. -/
def trimStr (s : String) : String := ⟨trimChars s.data⟩

/-- Decimal digit character for a value 0..9 (10 and above clamp to the
last branch; every call site passes a value below 10). -/
def digitChar (d : Nat) : Char :=
  if d = 0 then '0' else if d = 1 then '1' else if d = 2 then '2'
  else if d = 3 then '3' else if d = 4 then '4' else if d = 5 then '5'
  else if d = 6 then '6' else if d = 7 then '7' else if d = 8 then '8'
  else '9'

/-- Numeric value of a big-endian digit-character list. -/
def digitsVal (l : List Char) : Nat :=
  l.foldl (fun a c => 10 * a + (c.toNat - 48)) 0

/-- Fuelled big-endian decimal rendering of a natural number. -/
def toDigitsAux : Nat → Nat → List Char
  | 0, _ => []
  | fuel + 1, n =>
      if n < 10 then [digitChar n]
      else toDigitsAux fuel (n / 10) ++ [digitChar (n % 10)]

/-- Decimal rendering of a natural number, as JS String(Number(x)) produces
for integer values (fuel n+1 always suffices). -/
def natRepr (n : Nat) : String := ⟨toDigitsAux (n + 1) n⟩

/-- Boolean prefix test on character lists (pattern first). -/
def leadsWith : List Char → List Char → Bool
  | [], _ => true
  | _ :: _, [] => false
  | p :: ps, c :: cs => p == c && leadsWith ps cs

/-- Drop the first n characters of a string (JS substring from index n). -/
def strDrop (s : String) (n : Nat) : String := ⟨s.data.drop n⟩

/-- Serial-key normalization from mergeData (parseExcel.ts lines 720-728):
trim, and if the trimmed text is entirely digits, round-trip through
integer parsing to strip leading zeros.  The JS Number round trip is
modelled with exact naturals (serials are modest integers). -/
def normalizeSerial (s : String) : String :=
  let str := trimStr s
  if !str.data.isEmpty && str.data.all Char.isDigit then
    natRepr (digitsVal str.data)
  else str

/-- Signed exponent of a JS float literal tail: an optional sign followed
by digits; with no digits the exponent is ignored (parseFloat("1e") is 1). -/
def expoVal (t : List Char) : Int :=
  let st : Bool × List Char :=
    match t with
    | '-' :: u => (true, u)
    | '+' :: u => (false, u)
    | _ => (false, t)
  let es := st.2.takeWhile Char.isDigit
  if es.isEmpty then 0
  else if st.1 then -(digitsVal es : Int)
  else (digitsVal es : Int)

/-- Model of JS parseFloat on the decimal fragment it is given here:
skip leading whitespace, optional sign, integer digits, optional dot and
fraction digits, optional exponent; none when no digit was read (NaN).
The parsed value sign*(ds.fs)*10^ep is assembled with integer arithmetic
and Rat.divInt, which represents exactly the same rational. -/
def parseFloatQ (s : String) : Option ℚ :=
  let l := s.data.dropWhile wsp
  let sl : Int × List Char :=
    match l with
    | '-' :: t => (-1, t)
    | '+' :: t => (1, t)
    | _ => (1, l)
  let ds := sl.2.takeWhile Char.isDigit
  let r1 := sl.2.dropWhile Char.isDigit
  let fr : List Char × List Char :=
    match r1 with
    | '.' :: t => (t.takeWhile Char.isDigit, t.dropWhile Char.isDigit)
    | _ => ([], r1)
  if ds.isEmpty && fr.1.isEmpty then none
  else
    let den : Nat := Nat.pow 10 fr.1.length
    let mant : Int :=
      sl.1 * ((digitsVal ds : Int) * (den : Int) + (digitsVal fr.1 : Int))
    let ep : Int :=
      match fr.2 with
      | 'e' :: t => expoVal t
      | 'E' :: t => expoVal t
      | _ => 0
    if 0 ≤ ep then
      some (Rat.divInt (mant * (Nat.pow 10 ep.toNat : Nat)) (den : Int))
    else
      some (Rat.divInt mant ((den * Nat.pow 10 (-ep).toNat : Nat) : Int))

/-- parseThreshold from AdvancedPartScatterChart.tsx lines 101-128: trim,
map blank and literal-zero text to none, tolerate a missing leading zero
before the decimal point, parse, and map non-positive results to none. -/
def parseThreshold (threshold : Option String) : Option ℚ :=
  match threshold with
  | none => none
  | some t =>
    let thresholdStr := trimStr t
    if thresholdStr == "" || thresholdStr == "0" ||
        thresholdStr == "0.0" || thresholdStr == "0.00" then none
    else
      let n1 := if leadsWith ['.'] thresholdStr.data then "0" ++ thresholdStr
                else thresholdStr
      let n2 := if leadsWith ['-', '.'] n1.data then "-0" ++ strDrop n1 1
                else n1
      match parseFloatQ n2 with
      | none => none
      | some q => if q ≤ 0 then none else some q

/-- Valid part codes (constants.ts lines 26-29). -/
def VALID_PARTS : List String :=
  ["FRU", "FRL", "FLU", "FLL", "RRU", "RRL", "RLU", "RLL"]

/-- Probe-side record (TechformData): canonical serial and part plus the
eight validated measurement slots P..W (null modelled as none). -/
structure TechformData where
  serial : String
  part : String
  P : Option ℚ
  Q : Option ℚ
  R : Option ℚ
  S : Option ℚ
  T : Option ℚ
  U : Option ℚ
  V : Option ℚ
  W : Option ℚ
deriving DecidableEq

/-- Fixture-side record (EclipseData from parseCheckedFixtureSheet):
identity, sheet metadata and the single reference measurement. -/
structure EclipseData where
  serial : String
  part : String
  sourceFile : String
  sheetName : String
  fixtureMeasurement : Option ℚ
deriving DecidableEq

/-- Merged record as produced by the object spread in mergeData
(parseExcel.ts lines 803-813). -/
structure MergedData where
  serial : String
  part : String
  sourceFile : String
  sheetName : String
  fixtureMeasurement : Option ℚ
  P : Option ℚ
  Q : Option ℚ
  R : Option ℚ
  S : Option ℚ
  T : Option ℚ
  U : Option ℚ
  V : Option ℚ
  W : Option ℚ
deriving DecidableEq

/-- Normalized probe lookup key, serial and part joined by a bar. -/
def techKey (t : TechformData) : String :=
  normalizeSerial t.serial ++ "|" ++ t.part

/-- The object-spread merge of one probe and one fixture record.  The JS
literal lists explicit serial and part fields first, then spreads
techformItem (measurement slots) and finally eclipseItem; later keys win,
so serial, part, sourceFile, sheetName and fixtureMeasurement all come
from the fixture record while the slots come from the probe record. -/
def mergeMerge (t : TechformData) (e : EclipseData) : MergedData :=
  { serial := e.serial
    part := e.part
    sourceFile := e.sourceFile
    sheetName := e.sheetName
    fixtureMeasurement := e.fixtureMeasurement
    P := t.P, Q := t.Q, R := t.R, S := t.S
    T := t.T, U := t.U, V := t.V, W := t.W }

/-- One iteration of the probe-map building loop: skip records whose
serial normalizes to empty, otherwise Map.set, which overwrites any
earlier binding of the same key. -/
def techMapStep (m : String → Option TechformData) (t : TechformData) :
    String → Option TechformData :=
  if normalizeSerial t.serial == "" then m
  else fun k => if k == techKey t then some t else m k

/-- The serial+part Map built from probe records (parseExcel.ts lines
730-741), modelled as its lookup function. -/
def buildTechMap (ts : List TechformData) : String → Option TechformData :=
  ts.foldl techMapStep (fun _ => none)

/-- Normalized fixture lookup key, serial and part joined by a bar. -/
def eKey (e : EclipseData) : String :=
  normalizeSerial e.serial ++ "|" ++ e.part

/-- A probe record that enters the lookup map under key k: its serial
normalizes to something non-empty and its own key is k. -/
def probeHit (k : String) (t : TechformData) : Bool :=
  !(normalizeSerial t.serial == "") && (techKey t == k)

/-- The merged list from mergeData: for each fixture record, drop it when
its part is not valid or its serial normalizes to empty, otherwise look
up the exact normalized key and merge on a hit. -/
def mergedList (ts : List TechformData) (es : List EclipseData) : List MergedData :=
  let tmap := buildTechMap ts
  es.filterMap (fun e =>
    if VALID_PARTS.contains e.part then
      if normalizeSerial e.serial == "" then none
      else
        match tmap (eKey e) with
        | none => none
        | some t => some (mergeMerge t e)
    else none)

/-- mergeData (parseExcel.ts lines 710-858): merged rows plus the
unmatched count, computed in the source as techformData.length minus
exactMatchCount, where exactMatchCount is incremented once per merged
row; the result is an integer because that difference can be negative. -/
def mergeData (ts : List TechformData) (es : List EclipseData) :
    List MergedData × ℤ :=
  let merged := mergedList ts es
  (merged, (ts.length : ℤ) - (merged.length : ℤ))

/-- Tidy point (AirgapPoint): optional fields mirror the TS type, where
value may be null and measurement, sourceFile and sheetName may be
absent. -/
structure AirgapPoint where
  part : String
  serial : String
  position : String
  state : String
  value : Option ℚ
  measurement : Option ℚ
  sourceFile : Option String
  sheetName : Option String
deriving DecidableEq

/-- Merged record after extractAirgapValues has populated the preToggle
and postToggle slot maps (keys P,Q,R,S and T,U,V,W in insertion order). -/
structure TidyRecord where
  serial : String
  part : String
  sourceFile : String
  sheetName : String
  fixtureMeasurement : Option ℚ
  preP : Option ℚ
  preQ : Option ℚ
  preR : Option ℚ
  preS : Option ℚ
  postT : Option ℚ
  postU : Option ℚ
  postV : Option ℚ
  postW : Option ℚ
deriving DecidableEq

/-- Pre-toggle slots of a record, in the key order P, Q, R, S. -/
def preSlots (r : TidyRecord) : List (String × Option ℚ) :=
  [("P", r.preP), ("Q", r.preQ), ("R", r.preR), ("S", r.preS)]

/-- Post-toggle slots of a record, in the key order T, U, V, W. -/
def postSlots (r : TidyRecord) : List (String × Option ℚ) :=
  [("T", r.postT), ("U", r.postU), ("V", r.postV), ("W", r.postW)]

/-- One tidy point for a non-null slot, carrying the record identity, its
single fixture measurement and the sheet metadata (extractAirgap.ts
lines 148-184). -/
def slotPoint (r : TidyRecord) (st : String) (cv : String × Option ℚ) :
    Option AirgapPoint :=
  match cv.2 with
  | none => none
  | some v =>
      some { part := r.part, serial := r.serial, position := cv.1, state := st,
             value := some v, measurement := r.fixtureMeasurement,
             sourceFile := some r.sourceFile, sheetName := some r.sheetName }

/-- All points emitted for one merged record: pre points for the non-null
pre slots, then post points for the non-null post slots. -/
def recordPoints (r : TidyRecord) : List AirgapPoint :=
  (preSlots r).filterMap (slotPoint r "pre") ++
    (postSlots r).filterMap (slotPoint r "post")

/-- toTidyFormat (extractAirgap.ts lines 110-197). -/
def toTidyFormat (ms : List TidyRecord) : List AirgapPoint :=
  ms.flatMap recordPoints

/-- A rational that is an integer at least 1000, the serial-shaped values
excluded from measurement slots. -/
def isSerialLikeInt (q : ℚ) : Bool := q.den == 1 && 1000 ≤ q.num

/-- The four probe pre-toggle slots of a probe record, key order P..S. -/
def techSlots (t : TechformData) : List (String × Option ℚ) :=
  [("P", t.P), ("Q", t.Q), ("R", t.R), ("S", t.S)]

/-- One slot of the probe-only fallback loop: skip empty slots,
serial-shaped integers and magnitudes above 0.80 (mkRat 4 5), otherwise
emit a pre point with the sentinel source file and neither reference
measurement nor sheet name. -/
def fallbackSlotPoint (t : TechformData) (cv : String × Option ℚ) :
    Option AirgapPoint :=
  match cv.2 with
  | none => none
  | some q =>
      if isSerialLikeInt q then none
      else if mkRat 4 5 < |q| then none
      else
        some { part := t.part, serial := t.serial, position := cv.1,
               state := "pre", value := some q, measurement := none,
               sourceFile := some "raw_airgap", sheetName := none }

/-- techformDataToAirgapPoints (extractAirgap.ts lines 203-243): the
probe-only fallback emits pre points from the pre-toggle slots. -/
def techformDataToAirgapPoints (ts : List TechformData) : List AirgapPoint :=
  ts.flatMap (fun t => (techSlots t).filterMap (fallbackSlotPoint t))

/-- Chart input slice: points of the selected part and state whose value
is not null (AdvancedPartScatterChart.tsx lines 57-59). -/
def allDataForPart (data : List AirgapPoint) (part state : String) :
    List AirgapPoint :=
  data.filter (fun p => p.part == part && p.state == state && p.value.isSome)

/-- Points of one physical unit, in data order (the serial-group Map
preserves insertion order; its per-serial bucket is this filter). -/
def serialPoints (data : List AirgapPoint) (serial : String) : List AirgapPoint :=
  data.filter (fun p => p.serial == serial)

/-- Independent per-position threshold rejection of one unit
(AdvancedPartScatterChart.tsx lines 130-148): with no parsed threshold
nothing is rejected; otherwise the first point of the unit at the
position is rejected when its magnitude exceeds the threshold.  The
computation reads only this position threshold, so it is independent of
every other filter by construction. -/
def rejectedIndependently (data : List AirgapPoint) (thr : Option String)
    (position serial : String) : Bool :=
  match parseThreshold thr with
  | none => false
  | some T =>
    match (serialPoints data serial).find? (fun p => p.position == position) with
    | none => false
    | some p =>
      match p.value with
      | none => false
      | some v => decide (T < |v|)

/-- A cross-position comparison rule (the comparisonFilters state). -/
structure ComparisonFilter where
  leftAirgaps : List String
  rightAirgaps : List String
  margin : String
  enabled : Bool
deriving DecidableEq

/-- Value of the first point of a unit at a position, when present and
non-null (the find-then-filter step of the comparison loop). -/
def findPointVal (pts : List AirgapPoint) (pos : String) : Option ℚ :=
  match pts.find? (fun p => p.position == pos) with
  | none => none
  | some p => p.value

/-- One comparison rule applied to one unit (AdvancedPartScatterChart.tsx
lines 151-195): disabled rules and unparsable margins never reject; a
unit missing any required position is exempt; otherwise reject when some
left magnitude is at least some right magnitude plus the margin. -/
def ruleRejects (pts : List AirgapPoint) (f : ComparisonFilter) : Bool :=
  if f.enabled then
    match parseThreshold (some f.margin) with
    | none => false
    | some M =>
      let ls := f.leftAirgaps.filterMap (findPointVal pts)
      let rs := f.rightAirgaps.filterMap (findPointVal pts)
      if ls.length == f.leftAirgaps.length &&
          rs.length == f.rightAirgaps.length then
        ls.any (fun l => rs.any (fun r => decide (|r| + M ≤ |l|)))
      else false
  else false

/-- A unit is comparison-rejected when any rule rejects it. -/
def comparisonRejected (pts : List AirgapPoint) (fs : List ComparisonFilter) :
    Bool :=
  fs.any (ruleRejects pts)

/-- Specification-side quantity, following the spec words rather than the
source, for comparison with the unmatched count the code returns: the
number of probe records with no merged record referencing their
normalized (serial, part) pair. -/
def specUnmatchedCount (ts : List TechformData) (merged : List MergedData) :
    Nat :=
  (ts.filter (fun t =>
    !(merged.any (fun m =>
      normalizeSerial m.serial ++ "|" ++ m.part == techKey t)))).length

/-! Generic list lemmas shared by several claim proofs. -/

theorem find?_eq_head?_filter {α : Type} (p : α → Bool) :
    ∀ l : List α, l.find? p = (l.filter p).head?
  | [] => rfl
  | a :: t => by
    by_cases h : p a
    · rw [List.find?_cons_of_pos _ h, List.filter_cons_of_pos h]
      rfl
    · rw [List.find?_cons_of_neg _ h, List.filter_cons_of_neg (by simpa using h)]
      exact find?_eq_head?_filter p t

theorem filterMap_length_eq_iff {α β : Type} (g : α → Option β) :
    ∀ l : List α,
      ((l.filterMap g).length = l.length ↔ ∀ a ∈ l, (g a).isSome = true)
  | [] => by simp
  | a :: t => by
    cases hg : g a with
    | some b =>
        simp [List.filterMap_cons, hg, filterMap_length_eq_iff g t]
    | none =>
        have hle := List.length_filterMap_le g t
        simp only [List.filterMap_cons, hg, List.length_cons, List.mem_cons]
        constructor
        · intro h; omega
        · intro h
          have := h a (Or.inl rfl)
          rw [hg] at this
          simp at this

theorem length_filterMap_eq_filter {α β : Type} (g : α → Option β)
    (p : α → Bool) (h : ∀ a, (g a).isSome = p a) :
    ∀ l : List α, (l.filterMap g).length = (l.filter p).length
  | [] => rfl
  | a :: t => by
    cases hg : g a with
    | none =>
        have hp : p a = false := by rw [← h a, hg]; rfl
        simp [List.filterMap_cons, hg, List.filter_cons, hp,
          length_filterMap_eq_filter g p h t]
    | some b =>
        have hp : p a = true := by rw [← h a, hg]; rfl
        simp [List.filterMap_cons, hg, List.filter_cons, hp,
          length_filterMap_eq_filter g p h t]

theorem dropWhile_head_false {α : Type} (p : α → Bool) :
    ∀ (l : List α) (a : α) (t : List α), l.dropWhile p = a :: t → p a = false
  | [], a, t => by intro h; simp [List.dropWhile] at h
  | c :: cs, a, t => by
    intro h
    by_cases hc : p c
    · rw [List.dropWhile_cons, if_pos hc] at h
      exact dropWhile_head_false p cs a t h
    · rw [List.dropWhile_cons, if_neg hc] at h
      cases h
      simpa using hc

theorem dropWhile_cons_false {α : Type} {p : α → Bool} {a : α}
    (h : p a = false) (t : List α) : (a :: t).dropWhile p = a :: t := by
  rw [List.dropWhile_cons, if_neg (by simp [h])]

theorem dropWhile_of_forall_false {α : Type} {p : α → Bool} :
    ∀ {l : List α}, (∀ a ∈ l, p a = false) → l.dropWhile p = l
  | [], _ => rfl
  | a :: t, h => dropWhile_cons_false (h a (List.mem_cons_self a t)) t

theorem dropWhile_append_last {α : Type} {p : α → Bool} {x : α}
    (hx : p x = false) :
    ∀ l : List α, (l ++ [x]).dropWhile p = l.dropWhile p ++ [x]
  | [] => by simp [dropWhile_cons_false hx]
  | a :: t => by
    by_cases ha : p a
    · simp only [List.cons_append, List.dropWhile_cons, if_pos ha]
      exact dropWhile_append_last hx t
    · simp only [List.cons_append, List.dropWhile_cons, if_neg ha]

/-! Trim lemmas. -/

theorem trimChars_of_forall_false {l : List Char}
    (h : ∀ c ∈ l, wsp c = false) : trimChars l = l := by
  unfold trimChars
  rw [dropWhile_of_forall_false h,
    dropWhile_of_forall_false (fun c hc => h c (List.mem_reverse.1 hc)),
    List.reverse_reverse]

theorem trimChars_idem (l : List Char) : trimChars (trimChars l) = trimChars l := by
  cases hd : l.dropWhile wsp with
  | nil =>
      have h1 : trimChars l = [] := by
        unfold trimChars
        rw [hd]
        rfl
      rw [h1]
      rfl
  | cons hd0 dt =>
      have hhd : wsp hd0 = false := dropWhile_head_false wsp l hd0 dt hd
      have h1 : trimChars l = hd0 :: (dt.reverse.dropWhile wsp).reverse := by
        unfold trimChars
        rw [hd, List.reverse_cons, dropWhile_append_last hhd, List.reverse_append]
        rfl
      rw [h1]
      unfold trimChars
      rw [dropWhile_cons_false hhd, List.reverse_cons, List.reverse_reverse]
      cases he : dt.reverse.dropWhile wsp with
      | nil =>
          simp [dropWhile_cons_false hhd]
      | cons b bs =>
          have hb : wsp b = false := dropWhile_head_false wsp dt.reverse b bs he
          rw [List.cons_append, dropWhile_cons_false hb]
          simp

theorem trimStr_idem (s : String) : trimStr (trimStr s) = trimStr s :=
  congrArg String.mk (trimChars_idem s.data)

/-! Digit-character and decimal round-trip lemmas. -/

theorem digitChar_toNat {d : Nat} (hd : d < 10) : (digitChar d).toNat = 48 + d := by
  unfold digitChar
  split_ifs with h0 h1 h2 h3 h4 h5 h6 h7 h8
  · subst h0; decide
  · subst h1; decide
  · subst h2; decide
  · subst h3; decide
  · subst h4; decide
  · subst h5; decide
  · subst h6; decide
  · subst h7; decide
  · subst h8; decide
  · have h9 : d = 9 := by omega
    subst h9; decide

theorem digitChar_isDigit (d : Nat) : (digitChar d).isDigit = true := by
  unfold digitChar
  split_ifs <;> decide

theorem digitChar_not_wsp (d : Nat) : wsp (digitChar d) = false := by
  unfold digitChar
  split_ifs <;> decide

theorem digitsVal_append_singleton (l : List Char) (c : Char) :
    digitsVal (l ++ [c]) = 10 * digitsVal l + (c.toNat - 48) := by
  unfold digitsVal
  rw [List.foldl_append]
  rfl

theorem digitsVal_toDigitsAux :
    ∀ f n : Nat, n < 10 ^ f → digitsVal (toDigitsAux f n) = n
  | 0, n => by
    intro h
    have hn : n = 0 := by simpa using h
    subst hn
    rfl
  | f + 1, n => by
    intro h
    unfold toDigitsAux
    by_cases hn : n < 10
    · rw [if_pos hn]
      show 10 * 0 + ((digitChar n).toNat - 48) = n
      rw [digitChar_toNat hn]
      omega
    · rw [if_neg hn]
      rw [digitsVal_append_singleton]
      have h10 : n / 10 < 10 ^ f := by
        rw [Nat.div_lt_iff_lt_mul (by omega)]
        calc n < 10 ^ (f + 1) := h
          _ = 10 ^ f * 10 := by ring
      rw [digitsVal_toDigitsAux f (n / 10) h10,
        digitChar_toNat (Nat.mod_lt n (by omega))]
      omega

theorem toDigitsAux_mem :
    ∀ (f n : Nat) (c : Char), c ∈ toDigitsAux f n → ∃ d, c = digitChar d
  | 0, n, c => by intro h; simp [toDigitsAux] at h
  | f + 1, n, c => by
    intro h
    unfold toDigitsAux at h
    by_cases hn : n < 10
    · rw [if_pos hn] at h
      simp at h
      exact ⟨n, h⟩
    · rw [if_neg hn] at h
      rcases List.mem_append.1 h with h1 | h2
      · exact toDigitsAux_mem f _ c h1
      · simp at h2
        exact ⟨n % 10, h2⟩

theorem toDigitsAux_ne_nil (n : Nat) : toDigitsAux (n + 1) n ≠ [] := by
  unfold toDigitsAux
  by_cases hn : n < 10
  · rw [if_pos hn]; simp
  · rw [if_neg hn]; simp

theorem digitsVal_natRepr (n : Nat) : digitsVal (natRepr n).data = n := by
  show digitsVal (toDigitsAux (n + 1) n) = n
  refine digitsVal_toDigitsAux (n + 1) n ?_
  calc n < 10 ^ n := Nat.lt_pow_self (by omega) n
    _ ≤ 10 ^ (n + 1) := Nat.pow_le_pow_right (by omega) (by omega)

theorem natRepr_mem_digitChar {n : Nat} {c : Char} (h : c ∈ (natRepr n).data) :
    ∃ d, c = digitChar d :=
  toDigitsAux_mem (n + 1) n c h

theorem trimStr_natRepr (n : Nat) : trimStr (natRepr n) = natRepr n := by
  refine congrArg String.mk (trimChars_of_forall_false ?_)
  intro c hc
  obtain ⟨d, rfl⟩ := natRepr_mem_digitChar hc
  exact digitChar_not_wsp d

theorem natRepr_cond (n : Nat) :
    (!(natRepr n).data.isEmpty && (natRepr n).data.all Char.isDigit) = true := by
  rw [Bool.and_eq_true]
  refine ⟨?_, ?_⟩
  · have h := toDigitsAux_ne_nil n
    cases hl : toDigitsAux (n + 1) n with
    | nil => exact absurd hl h
    | cons a t =>
        show (!(toDigitsAux (n + 1) n).isEmpty) = true
        rw [hl]
        rfl
  · refine List.all_eq_true.2 ?_
    intro c hc
    obtain ⟨d, rfl⟩ := natRepr_mem_digitChar hc
    exact digitChar_isDigit d

theorem normalizeSerial_natRepr (n : Nat) :
    normalizeSerial (natRepr n) = natRepr n := by
  unfold normalizeSerial
  rw [trimStr_natRepr]
  simp only [natRepr_cond, if_true]
  rw [digitsVal_natRepr]

theorem normalizeSerial_idem (s : String) :
    normalizeSerial (normalizeSerial s) = normalizeSerial s := by
  by_cases hc :
      (!(trimStr s).data.isEmpty && (trimStr s).data.all Char.isDigit) = true
  · have h1 : normalizeSerial s = natRepr (digitsVal (trimStr s).data) := by
      unfold normalizeSerial
      rw [if_pos hc]
    rw [h1, normalizeSerial_natRepr]
  · have h1 : normalizeSerial s = trimStr s := by
      unfold normalizeSerial
      rw [if_neg hc]
    rw [h1]
    unfold normalizeSerial
    rw [trimStr_idem]
    rw [if_neg hc]

/-! Characterization of the probe lookup map: the value bound to a key is
the last probe record in input order that was inserted under that key,
because a later Map.set overwrites an earlier one. -/

theorem foldl_techMapStep :
    ∀ (ts : List TechformData) (m0 : String → Option TechformData)
      (k : String),
      (ts.foldl techMapStep m0) k = (ts.reverse.find? (probeHit k)).or (m0 k)
  | [], m0, k => by simp
  | t :: rest, m0, k => by
    rw [List.foldl_cons, foldl_techMapStep rest (techMapStep m0 t) k,
      List.reverse_cons, List.find?_append]
    cases hf : rest.reverse.find? (probeHit k) with
    | some u => rfl
    | none =>
        rw [Option.none_or, Option.none_or]
        unfold techMapStep probeHit
        by_cases h1 : normalizeSerial t.serial == ""
        · rw [if_pos h1]
          have hph : (!(normalizeSerial t.serial == "") && (techKey t == k))
              = false := by rw [h1]; rfl
          simp [List.find?, hph]
        · rw [if_neg h1]
          by_cases h2 : k == techKey t
          · have hk : techKey t == k := by
              rw [beq_iff_eq] at h2 ⊢
              exact h2.symm
            have hph : (!(normalizeSerial t.serial == "") && (techKey t == k))
                = true := by
              rw [Bool.and_eq_true]
              exact ⟨by simp [h1], hk⟩
            rw [if_pos h2]
            simp [List.find?, hph]
          · have hk : (techKey t == k) = false := by
              rw [Bool.eq_false_iff]
              intro hcon
              rw [beq_iff_eq] at hcon h2
              exact h2 hcon.symm
            have hph : (!(normalizeSerial t.serial == "") && (techKey t == k))
                = false := by rw [hk]; simp
            rw [if_neg h2]
            simp [List.find?, hph]

theorem buildTechMap_eq_find (ts : List TechformData) (k : String) :
    buildTechMap ts k = ts.reverse.find? (probeHit k) := by
  rw [buildTechMap, foldl_techMapStep ts (fun _ => none) k]
  cases ts.reverse.find? (probeHit k) with
  | none => rfl
  | some u => rfl

/-! parseThreshold facts shared by the filter claims. -/

theorem parseThreshold_pos :
    ∀ (thr : Option String) (T : ℚ), parseThreshold thr = some T → 0 < T := by
  intro thr T h
  cases thr with
  | none => simp [parseThreshold] at h
  | some s =>
      simp only [parseThreshold] at h
      split at h
      · exact absurd h (by simp)
      · split at h
        · exact absurd h (by simp)
        · rename_i q hq
          split at h
          · exact absurd h (by simp)
          · rename_i hle
            cases h
            exact lt_of_not_le hle

theorem ruleRejects_of_margin_none (pts : List AirgapPoint)
    (f : ComparisonFilter) (h : parseThreshold (some f.margin) = none) :
    ruleRejects pts f = false := by
  unfold ruleRejects
  by_cases he : f.enabled
  · rw [if_pos he, h]
  · rw [if_neg he]

/-! Claim theorems. -/

/-- C1: the claim says unmatchedCount equals the number of probe records
with no merged record referencing their (serial, part) pair, that is,
probeRecords.length minus the number of distinct matched probe keys and
not minus the number of merged rows.  The code subtracts
exactMatchCount, which is incremented once per merged row, so a single
probe record matched by two fixture sheets yields unmatchedCount -1
where the specified count is 0: the code contradicts its own comment
that the value counts probe items with no fixture data. -/
theorem mergeData_unmatchedCount_bug :
    (mergeData
        [⟨"1", "RRL", some (mkRat 1 20), none, none, none, none, none, none,
          none⟩]
        [⟨"1", "RRL", "fix.xlsx", "Sheet1", some (mkRat 1 25)⟩,
         ⟨"1", "RRL", "fix.xlsx", "Sheet2", some (mkRat 3 100)⟩]).2 = -1
    ∧ specUnmatchedCount
        [⟨"1", "RRL", some (mkRat 1 20), none, none, none, none, none, none,
          none⟩]
        (mergeData
          [⟨"1", "RRL", some (mkRat 1 20), none, none, none, none, none, none,
            none⟩]
          [⟨"1", "RRL", "fix.xlsx", "Sheet1", some (mkRat 1 25)⟩,
           ⟨"1", "RRL", "fix.xlsx", "Sheet2", some (mkRat 3 100)⟩]).1 = 0
    ∧ (mergeData
        [⟨"1", "RRL", some (mkRat 1 20), none, none, none, none, none, none,
          none⟩]
        [⟨"1", "RRL", "fix.xlsx", "Sheet1", some (mkRat 1 25)⟩,
         ⟨"1", "RRL", "fix.xlsx", "Sheet2", some (mkRat 3 100)⟩]).1.length
        = 2 := by
  decide

/-- C2: the claim says a merged record takes its canonical serial and part
from the probe record while other fields come from the fixture record.
In the code the eclipseItem spread comes last in the merged object
literal, so the fixture serial wins: with probe serial "123" and fixture
serial "00123" (equal after normalization, so they match) the merged
record carries "00123", not the probe serial "123" that the adjacent
comment declares the source of truth. -/
theorem mergeData_serial_overlay_bug :
    ((mergeData
        [⟨"123", "RRL", some (mkRat 1 20), none, none, none, none, none, none,
          none⟩]
        [⟨"00123", "RRL", "fix.xlsx", "Sheet1", some (mkRat 1 25)⟩]).1.map
      (fun m => m.serial)) = ["00123"]
    ∧ ("00123" : String) ≠ "123" := by
  decide

/-- C8: serial-key normalization is idempotent, all-digit strings have
their leading zeros stripped by the integer round trip, and non-numeric
identifiers are merely trimmed. -/
theorem normalizeSerial_idempotent :
    (∀ s : String, normalizeSerial (normalizeSerial s) = normalizeSerial s)
    ∧ normalizeSerial "007" = "7"
    ∧ normalizeSerial " A1 " = "A1" :=
  ⟨normalizeSerial_idem, by decide, by decide⟩

/-- C3: when the threshold string parses to T (always positive), a unit
whose single point at the position has value v is independently rejected
there exactly when T < abs v; when the threshold does not parse (absent,
blank, zero, non-positive or unparsable) no unit is ever rejected at
that position.  The independent computation reads nothing but this one
threshold, so it behaves as if no other filter existed. -/
theorem threshold_independent_rejection :
    (∀ (data : List AirgapPoint) (thr : Option String) (T : ℚ)
        (pos serial : String) (p : AirgapPoint) (v : ℚ),
        parseThreshold thr = some T →
        (serialPoints data serial).filter (fun q => q.position == pos) = [p] →
        p.value = some v →
        (rejectedIndependently data thr pos serial = true ↔ T < |v|))
    ∧ (∀ (data : List AirgapPoint) (thr : Option String) (pos serial : String),
        parseThreshold thr = none →
        rejectedIndependently data thr pos serial = false)
    ∧ (∀ (thr : Option String) (T : ℚ), parseThreshold thr = some T → 0 < T) := by
  refine ⟨?_, ?_, parseThreshold_pos⟩
  · intro data thr T pos serial p v hT hfilter hv
    unfold rejectedIndependently
    rw [hT, find?_eq_head?_filter, hfilter]
    simp [hv]
  · intro data thr pos serial h
    unfold rejectedIndependently
    rw [h]

/-- Witness for C3 at a concrete unit: threshold "0.3", one point of
magnitude 0.5 at position P, rejected. -/
theorem threshold_independent_rejection_witness :
    rejectedIndependently
      [⟨"RRL", "s1", "P", "pre", some (mkRat 1 2), none, none, none⟩]
      (some "0.3") "P" "s1" = true :=
  (threshold_independent_rejection.1
    [⟨"RRL", "s1", "P", "pre", some (mkRat 1 2), none, none, none⟩]
    (some "0.3") (mkRat 3 10) "P" "s1"
    ⟨"RRL", "s1", "P", "pre", some (mkRat 1 2), none, none, none⟩
    (mkRat 1 2) (by decide) (by decide) rfl).mpr (by decide)

/-- C7: threshold and margin parsing maps ".1" to the same value as
"0.1", maps blank and zero text to no filter, never yields a
non-positive threshold, and an unparsable margin disables its
comparison rule instead of failing (evaluation is a total function). -/
theorem filter_parsing_tolerance :
    parseThreshold (some ".1") = some (mkRat 1 10)
    ∧ parseThreshold (some "0.1") = some (mkRat 1 10)
    ∧ parseThreshold (some "") = none
    ∧ parseThreshold (some "0") = none
    ∧ parseThreshold (some "0.0") = none
    ∧ parseThreshold (some "0.00") = none
    ∧ parseThreshold none = none
    ∧ (∀ (s : String) (T : ℚ), parseThreshold (some s) = some T → 0 < T)
    ∧ (∀ (pts : List AirgapPoint) (f : ComparisonFilter),
        parseThreshold (some f.margin) = none → ruleRejects pts f = false) :=
  ⟨by decide, by decide, by decide, by decide, by decide, by decide, rfl,
   fun s T h => parseThreshold_pos (some s) T h,
   fun pts f h => ruleRejects_of_margin_none pts f h⟩

/-- C4: for an enabled comparison rule whose margin parses to M, a unit
is rejected exactly when every required position of both sides is
present and some left magnitude is at least some right magnitude plus M;
a unit missing a required position is exempt.  In particular the rule
L bracket A, R bracket B, margin 0.1 rejects a unit with A at 0.5 and B
at 0.3, and does not reject one with A at 0.35 and B at 0.3. -/
theorem comparison_rule_rejects_iff :
    (∀ (pts : List AirgapPoint) (f : ComparisonFilter) (M : ℚ),
        f.enabled = true →
        parseThreshold (some f.margin) = some M →
        (ruleRejects pts f = true ↔
          ((∀ pos ∈ f.leftAirgaps, (findPointVal pts pos).isSome = true)
            ∧ (∀ pos ∈ f.rightAirgaps, (findPointVal pts pos).isSome = true)
            ∧ ∃ l ∈ f.leftAirgaps.filterMap (findPointVal pts),
                ∃ r ∈ f.rightAirgaps.filterMap (findPointVal pts),
                  |r| + M ≤ |l|)))
    ∧ ruleRejects
        [⟨"RRL", "u1", "A", "pre", some (mkRat 1 2), none, none, none⟩,
         ⟨"RRL", "u1", "B", "pre", some (mkRat 3 10), none, none, none⟩]
        ⟨["A"], ["B"], "0.1", true⟩ = true
    ∧ ruleRejects
        [⟨"RRL", "u1", "A", "pre", some (mkRat 7 20), none, none, none⟩,
         ⟨"RRL", "u1", "B", "pre", some (mkRat 3 10), none, none, none⟩]
        ⟨["A"], ["B"], "0.1", true⟩ = false := by
  have hiff : ∀ (pts : List AirgapPoint) (f : ComparisonFilter) (M : ℚ),
      f.enabled = true →
      parseThreshold (some f.margin) = some M →
      (ruleRejects pts f = true ↔
        ((∀ pos ∈ f.leftAirgaps, (findPointVal pts pos).isSome = true)
          ∧ (∀ pos ∈ f.rightAirgaps, (findPointVal pts pos).isSome = true)
          ∧ ∃ l ∈ f.leftAirgaps.filterMap (findPointVal pts),
              ∃ r ∈ f.rightAirgaps.filterMap (findPointVal pts),
                |r| + M ≤ |l|)) := by
    intro pts f M he hM
    unfold ruleRejects
    simp only [he, hM, if_true]
    by_cases hlen :
        ((f.leftAirgaps.filterMap (findPointVal pts)).length
            == f.leftAirgaps.length
          && (f.rightAirgaps.filterMap (findPointVal pts)).length
            == f.rightAirgaps.length) = true
    · rw [if_pos hlen]
      rw [Bool.and_eq_true] at hlen
      obtain ⟨hl1, hr1⟩ := hlen
      have hl2 : ∀ pos ∈ f.leftAirgaps, (findPointVal pts pos).isSome = true :=
        (filterMap_length_eq_iff (findPointVal pts) f.leftAirgaps).1
          (beq_iff_eq.1 hl1)
      have hr2 : ∀ pos ∈ f.rightAirgaps, (findPointVal pts pos).isSome = true :=
        (filterMap_length_eq_iff (findPointVal pts) f.rightAirgaps).1
          (beq_iff_eq.1 hr1)
      constructor
      · intro hany
        refine ⟨hl2, hr2, ?_⟩
        obtain ⟨l, hlmem, hinner⟩ := List.any_eq_true.1 hany
        obtain ⟨r, hrmem, hle⟩ := List.any_eq_true.1 hinner
        exact ⟨l, hlmem, r, hrmem, of_decide_eq_true hle⟩
      · rintro ⟨-, -, l, hlmem, r, hrmem, hle⟩
        exact List.any_eq_true.2
          ⟨l, hlmem, List.any_eq_true.2 ⟨r, hrmem, decide_eq_true hle⟩⟩
    · rw [if_neg hlen]
      constructor
      · intro h; cases h
      · rintro ⟨hl2, hr2, -⟩
        rw [Bool.and_eq_true] at hlen
        exact absurd
          ⟨beq_iff_eq.2
            ((filterMap_length_eq_iff (findPointVal pts) f.leftAirgaps).2 hl2),
           beq_iff_eq.2
            ((filterMap_length_eq_iff (findPointVal pts) f.rightAirgaps).2 hr2)⟩
          hlen
  refine ⟨hiff, ?_, ?_⟩
  · refine (hiff _ _ (mkRat 1 10) rfl (by decide)).mpr
      ⟨by decide, by decide, mkRat 1 2, by decide, mkRat 3 10, by decide, ?_⟩
    rw [abs_of_nonneg (by decide), abs_of_nonneg (by decide)]
    norm_num [Rat.mkRat_eq_divInt, Rat.divInt_eq_div]
  · have h2 := hiff
      [⟨"RRL", "u1", "A", "pre", some (mkRat 7 20), none, none, none⟩,
       ⟨"RRL", "u1", "B", "pre", some (mkRat 3 10), none, none, none⟩]
      ⟨["A"], ["B"], "0.1", true⟩ (mkRat 1 10) rfl (by decide)
    rw [Bool.eq_false_iff]
    intro htrue
    obtain ⟨-, -, l, hlmem, r, hrmem, hle⟩ := h2.mp htrue
    dsimp only at hlmem hrmem
    rw [show (["A"].filterMap (findPointVal
        [⟨"RRL", "u1", "A", "pre", some (mkRat 7 20), none, none, none⟩,
         ⟨"RRL", "u1", "B", "pre", some (mkRat 3 10), none, none, none⟩]))
        = [mkRat 7 20] from by decide] at hlmem
    rw [show (["B"].filterMap (findPointVal
        [⟨"RRL", "u1", "A", "pre", some (mkRat 7 20), none, none, none⟩,
         ⟨"RRL", "u1", "B", "pre", some (mkRat 3 10), none, none, none⟩]))
        = [mkRat 3 10] from by decide] at hrmem
    rw [List.mem_singleton.1 hlmem, List.mem_singleton.1 hrmem] at hle
    rw [abs_of_nonneg (by decide), abs_of_nonneg (by decide)] at hle
    rw [Rat.mkRat_eq_divInt, Rat.mkRat_eq_divInt, Rat.mkRat_eq_divInt,
      Rat.divInt_eq_div, Rat.divInt_eq_div, Rat.divInt_eq_div] at hle
    norm_num at hle

/-- Witness for C4 at a concrete unit: A at 0.6 and B at 0.2 with margin
0.1, rejected through the rule. -/
theorem comparison_rule_rejects_iff_witness :
    ruleRejects
      [⟨"RRL", "u2", "A", "pre", some (mkRat 3 5), none, none, none⟩,
       ⟨"RRL", "u2", "B", "pre", some (mkRat 1 5), none, none, none⟩]
      ⟨["A"], ["B"], "0.1", true⟩ = true := by
  refine (comparison_rule_rejects_iff.1 _ _ (mkRat 1 10) rfl (by decide)).mpr
    ⟨by decide, by decide, mkRat 3 5, by decide, mkRat 1 5, by decide, ?_⟩
  rw [abs_of_nonneg (by decide), abs_of_nonneg (by decide)]
  norm_num [Rat.mkRat_eq_divInt, Rat.divInt_eq_div]

/-- Witness for C7: a positive parsed threshold and a rule with
non-numeric margin that rejects nothing. -/
theorem filter_parsing_tolerance_witness :
    (0 : ℚ) < mkRat 1 10
    ∧ ruleRejects [] ⟨["A"], ["B"], "abc", true⟩ = false :=
  ⟨filter_parsing_tolerance.2.2.2.2.2.2.2.1 "0.1" (mkRat 1 10) (by decide),
   filter_parsing_tolerance.2.2.2.2.2.2.2.2 [] ⟨["A"], ["B"], "abc", true⟩
     (by decide)⟩

/-! Helper lemmas for the tidy transform. -/

theorem slotPoint_isSome (r : TidyRecord) (st : String)
    (cv : String × Option ℚ) : (slotPoint r st cv).isSome = cv.2.isSome := by
  obtain ⟨c, v⟩ := cv
  cases v <;> rfl

theorem recordPoints_length (r : TidyRecord) :
    (recordPoints r).length =
      ((preSlots r).filter (fun cv => cv.2.isSome)).length +
      ((postSlots r).filter (fun cv => cv.2.isSome)).length := by
  rw [recordPoints, List.length_append,
    length_filterMap_eq_filter (slotPoint r "pre") _ (slotPoint_isSome r "pre")
      (preSlots r),
    length_filterMap_eq_filter (slotPoint r "post") _ (slotPoint_isSome r "post")
      (postSlots r)]

theorem recordPoints_share (r : TidyRecord) :
    ∀ p ∈ recordPoints r,
      p.measurement = r.fixtureMeasurement ∧ p.sourceFile = some r.sourceFile ∧
      p.sheetName = some r.sheetName := by
  intro p hp
  rcases List.mem_append.1 hp with h | h <;>
  · obtain ⟨cv, hcv, hsp⟩ := List.mem_filterMap.1 h
    obtain ⟨c, v⟩ := cv
    cases v with
    | none => simp [slotPoint] at hsp
    | some q =>
        obtain ⟨rfl⟩ := Option.some.inj hsp
        exact ⟨rfl, rfl, rfl⟩

/-- C5: the tidy transform emits exactly one point per non-null pre slot
and per non-null post slot of each merged record, and every point of a
record carries that record single reference measurement, source file and
sheet name. -/
theorem toTidyFormat_point_count :
    ∀ ms : List TidyRecord,
      (toTidyFormat ms).length
          = (ms.map (fun r =>
              ((preSlots r).filter (fun cv => cv.2.isSome)).length +
              ((postSlots r).filter (fun cv => cv.2.isSome)).length)).sum
      ∧ ∀ r ∈ ms, ∀ p ∈ recordPoints r,
          p.measurement = r.fixtureMeasurement ∧
          p.sourceFile = some r.sourceFile ∧ p.sheetName = some r.sheetName := by
  intro ms
  refine ⟨?_, fun r _ => recordPoints_share r⟩
  induction ms with
  | nil => rfl
  | cons r rest ih =>
      rw [toTidyFormat, List.flatMap_cons, List.length_append, List.map_cons,
        List.sum_cons, recordPoints_length]
      rw [toTidyFormat] at ih
      rw [ih]

/-- Witness for C5 at a record with two non-null pre slots and one
non-null post slot: three points, each carrying the record metadata. -/
theorem toTidyFormat_point_count_witness :
    (toTidyFormat
        [⟨"s1", "RRL", "f.xlsx", "Sh", some (mkRat 1 50), some (mkRat 1 20),
          none, some (mkRat 1 10), none, some (mkRat 1 5), none, none, none⟩]).length
      = ([(⟨"s1", "RRL", "f.xlsx", "Sh", some (mkRat 1 50), some (mkRat 1 20),
          none, some (mkRat 1 10), none, some (mkRat 1 5), none, none, none⟩ :
            TidyRecord)].map (fun r =>
          ((preSlots r).filter (fun cv => cv.2.isSome)).length +
          ((postSlots r).filter (fun cv => cv.2.isSome)).length)).sum
    ∧ ((⟨"RRL", "s1", "P", "pre", some (mkRat 1 20), some (mkRat 1 50),
          some "f.xlsx", some "Sh"⟩ : AirgapPoint).measurement
          = some (mkRat 1 50)
        ∧ (⟨"RRL", "s1", "P", "pre", some (mkRat 1 20), some (mkRat 1 50),
            some "f.xlsx", some "Sh"⟩ : AirgapPoint).sourceFile
          = some "f.xlsx"
        ∧ (⟨"RRL", "s1", "P", "pre", some (mkRat 1 20), some (mkRat 1 50),
            some "f.xlsx", some "Sh"⟩ : AirgapPoint).sheetName = some "Sh") :=
  ⟨(toTidyFormat_point_count
      [⟨"s1", "RRL", "f.xlsx", "Sh", some (mkRat 1 50), some (mkRat 1 20),
        none, some (mkRat 1 10), none, some (mkRat 1 5), none, none, none⟩]).1,
   (toTidyFormat_point_count
      [⟨"s1", "RRL", "f.xlsx", "Sh", some (mkRat 1 50), some (mkRat 1 20),
        none, some (mkRat 1 10), none, some (mkRat 1 5), none, none, none⟩]).2
     ⟨"s1", "RRL", "f.xlsx", "Sh", some (mkRat 1 50), some (mkRat 1 20),
        none, some (mkRat 1 10), none, some (mkRat 1 5), none, none, none⟩
     (by decide)
     ⟨"RRL", "s1", "P", "pre", some (mkRat 1 20), some (mkRat 1 50),
        some "f.xlsx", some "Sh"⟩
     (by decide)⟩

/-! Helper lemma for the probe-only fallback transform. -/

theorem fallbackSlotPoint_count (t : TechformData) :
    ∀ l : List (String × Option ℚ),
      (l.filterMap (fallbackSlotPoint t)).length =
        (l.filterMap (fun cv => cv.2)).countP
          (fun q => !isSerialLikeInt q && !decide (mkRat 4 5 < |q|))
  | [] => rfl
  | cv :: rest => by
      obtain ⟨c, v⟩ := cv
      cases v with
      | none =>
          simpa [List.filterMap_cons, fallbackSlotPoint] using
            fallbackSlotPoint_count t rest
      | some q =>
          by_cases h1 : isSerialLikeInt q = true
          · simpa [List.filterMap_cons, fallbackSlotPoint, h1,
              List.countP_cons] using fallbackSlotPoint_count t rest
          · by_cases h2 : mkRat 4 5 < |q|
            · simpa [List.filterMap_cons, fallbackSlotPoint, h1, h2,
                List.countP_cons] using fallbackSlotPoint_count t rest
            · simpa [List.filterMap_cons, fallbackSlotPoint, h1, h2,
                List.countP_cons] using fallbackSlotPoint_count t rest

/-- C6: every point of the probe-only fallback has state pre, no
reference measurement, no sheet name and the sentinel source file
raw_airgap, and its value is a slot value of magnitude at most 0.80 that
is not a serial-shaped integer; per record, exactly the slots passing
those checks produce a point, so out-of-range or serial-shaped slot
values yield no point. -/
theorem techform_fallback_points :
    (∀ ts : List TechformData, ∀ p ∈ techformDataToAirgapPoints ts,
      p.state = "pre" ∧ p.measurement = none
        ∧ p.sourceFile = some "raw_airgap" ∧ p.sheetName = none
        ∧ ∃ v : ℚ, p.value = some v ∧ |v| ≤ mkRat 4 5
            ∧ isSerialLikeInt v = false)
    ∧ ∀ t : TechformData,
        (techformDataToAirgapPoints [t]).length =
          ((techSlots t).filterMap (fun cv => cv.2)).countP
            (fun q => !isSerialLikeInt q && !decide (mkRat 4 5 < |q|)) := by
  constructor
  · intro ts p hp
    obtain ⟨t, ht, hmem⟩ := List.mem_flatMap.1 hp
    obtain ⟨cv, hcv, heq⟩ := List.mem_filterMap.1 hmem
    obtain ⟨c, v⟩ := cv
    cases v with
    | none => simp [fallbackSlotPoint] at heq
    | some q =>
        by_cases h1 : isSerialLikeInt q = true
        · simp [fallbackSlotPoint, h1] at heq
        · have h1f : isSerialLikeInt q = false := by simpa using h1
          by_cases h2 : mkRat 4 5 < |q|
          · simp [fallbackSlotPoint, h1f, h2] at heq
          · have heq2 : fallbackSlotPoint t (c, some q) =
                some { part := t.part, serial := t.serial, position := c,
                       state := "pre", value := some q, measurement := none,
                       sourceFile := some "raw_airgap", sheetName := none } := by
              simp [fallbackSlotPoint, h1f, h2]
            rw [heq2] at heq
            obtain ⟨rfl⟩ := Option.some.inj heq
            exact ⟨rfl, rfl, rfl, rfl, q, rfl, le_of_not_lt h2, h1f⟩
  · intro t
    have h0 : techformDataToAirgapPoints [t]
        = (techSlots t).filterMap (fallbackSlotPoint t) ++ [] := rfl
    rw [h0, List.append_nil]
    exact fallbackSlotPoint_count t (techSlots t)

/-- Witness for C6: a probe record whose slots hold 0.5 (kept), 0.9
(dropped, out of range) and 2000 (dropped, serial-shaped); the kept
point is checked against the theorem and the emitted count is one. -/
theorem techform_fallback_points_witness :
    ((⟨"RRL", "9", "P", "pre", some (mkRat 1 2), none, some "raw_airgap",
        none⟩ : AirgapPoint).state = "pre"
      ∧ (⟨"RRL", "9", "P", "pre", some (mkRat 1 2), none, some "raw_airgap",
          none⟩ : AirgapPoint).measurement = none
      ∧ (⟨"RRL", "9", "P", "pre", some (mkRat 1 2), none, some "raw_airgap",
          none⟩ : AirgapPoint).sourceFile = some "raw_airgap"
      ∧ (⟨"RRL", "9", "P", "pre", some (mkRat 1 2), none, some "raw_airgap",
          none⟩ : AirgapPoint).sheetName = none
      ∧ ∃ v : ℚ, (⟨"RRL", "9", "P", "pre", some (mkRat 1 2), none,
          some "raw_airgap", none⟩ : AirgapPoint).value = some v
          ∧ |v| ≤ mkRat 4 5 ∧ isSerialLikeInt v = false)
    ∧ (techformDataToAirgapPoints
        [⟨"9", "RRL", some (mkRat 1 2), some (mkRat 9 10), some 2000, none,
          none, none, none, none⟩]).length =
      ((techSlots ⟨"9", "RRL", some (mkRat 1 2), some (mkRat 9 10), some 2000,
          none, none, none, none, none⟩).filterMap (fun cv => cv.2)).countP
        (fun q => !isSerialLikeInt q && !decide (mkRat 4 5 < |q|)) :=
  ⟨techform_fallback_points.1
      [⟨"9", "RRL", some (mkRat 1 2), some (mkRat 9 10), some 2000, none,
        none, none, none, none⟩]
      ⟨"RRL", "9", "P", "pre", some (mkRat 1 2), none, some "raw_airgap",
        none⟩
      (by decide),
   techform_fallback_points.2
      ⟨"9", "RRL", some (mkRat 1 2), some (mkRat 9 10), some 2000, none,
        none, none, none, none⟩⟩

/-! Helper: inversion of membership in the merged list. -/

theorem mem_mergedList {ts : List TechformData} {es : List EclipseData}
    {m : MergedData} (hm : m ∈ mergedList ts es) :
    ∃ e ∈ es, VALID_PARTS.contains e.part = true
      ∧ (normalizeSerial e.serial == "") = false
      ∧ ∃ t : TechformData,
          buildTechMap ts (eKey e) = some t ∧ m = mergeMerge t e := by
  have h0 : mergedList ts es = es.filterMap (fun e =>
      if VALID_PARTS.contains e.part then
        if normalizeSerial e.serial == "" then none
        else
          match buildTechMap ts (eKey e) with
          | none => none
          | some t => some (mergeMerge t e)
      else none) := rfl
  rw [h0] at hm
  obtain ⟨e, he, heq⟩ := List.mem_filterMap.1 hm
  refine ⟨e, he, ?_⟩
  by_cases h1 : VALID_PARTS.contains e.part = true
  · rw [if_pos h1] at heq
    by_cases h2 : (normalizeSerial e.serial == "") = true
    · rw [if_pos h2] at heq
      cases heq
    · rw [if_neg h2] at heq
      cases h3 : buildTechMap ts (eKey e) with
      | none => rw [h3] at heq; cases heq
      | some t =>
          rw [h3] at heq
          exact ⟨h1, by simpa using h2, t, rfl,
            (Option.some.inj heq).symm⟩
  · rw [if_neg h1] at heq
    cases heq

/-- C9: every merged record has a part in the eight valid codes and a
serial whose normalization is non-empty; the fixture record it came from
already carried that part and serial, so no unrecognized part is coerced
into a valid code, and fixture records with an invalid part or an
empty-normalizing serial are discarded before matching. -/
theorem mergeData_valid_parts :
    ∀ (ts : List TechformData) (es : List EclipseData),
      ∀ m ∈ (mergeData ts es).1,
        m.part ∈ VALID_PARTS ∧ normalizeSerial m.serial ≠ ""
          ∧ ∃ e ∈ es, e.part = m.part ∧ e.serial = m.serial
              ∧ e.part ∈ VALID_PARTS ∧ normalizeSerial e.serial ≠ "" := by
  intro ts es m hm
  obtain ⟨e, he, h1, h2, t, h3, h4⟩ := mem_mergedList hm
  have hmem : e.part ∈ VALID_PARTS := by
    have := List.elem_iff.1 h1
    exact this
  have hser : normalizeSerial e.serial ≠ "" := by
    intro hcon
    rw [hcon] at h2
    simp at h2
  subst h4
  exact ⟨hmem, hser, e, he, rfl, rfl, hmem, hser⟩

/-- Witness for C9 at one probe and one matching fixture record. -/
theorem mergeData_valid_parts_witness :
    ("RRL" : String) ∈ VALID_PARTS ∧ normalizeSerial "5" ≠ ""
      ∧ ∃ e ∈ [(⟨"5", "RRL", "f.xlsx", "S1", some (mkRat 1 25)⟩ :
            EclipseData)],
          e.part = "RRL" ∧ e.serial = "5"
            ∧ e.part ∈ VALID_PARTS ∧ normalizeSerial e.serial ≠ "" :=
  mergeData_valid_parts
    [⟨"5", "RRL", some (mkRat 1 20), none, none, none, none, none, none,
      none⟩]
    [⟨"5", "RRL", "f.xlsx", "S1", some (mkRat 1 25)⟩]
    ⟨"5", "RRL", "f.xlsx", "S1", some (mkRat 1 25), some (mkRat 1 20), none,
      none, none, none, none, none, none⟩
    (by decide)

/-- C10: every merged record is built from the probe record that the
lookup map holds for the fixture key, which is the last probe record in
input order whose normalized (serial, part) key matches; earlier
duplicates are shadowed by Map.set and contribute no merged record. -/
theorem mergeData_duplicate_last_wins :
    ∀ (ts : List TechformData) (es : List EclipseData),
      ∀ m ∈ (mergeData ts es).1,
        ∃ e ∈ es, ∃ t : TechformData,
          ts.reverse.find? (probeHit (eKey e)) = some t ∧ m = mergeMerge t e := by
  intro ts es m hm
  obtain ⟨e, he, -, -, t, h3, h4⟩ := mem_mergedList hm
  exact ⟨e, he, t, by rw [← buildTechMap_eq_find]; exact h3, h4⟩

/-- Witness for C10: two probe records with the same normalized key; the
merged record is built from the second (last) one, whose P slot is 2/10
rather than the shadowed 1/10. -/
theorem mergeData_duplicate_last_wins_witness :
    ∃ e ∈ [(⟨"7", "RRL", "f.xlsx", "S1", some (mkRat 1 25)⟩ : EclipseData)],
      ∃ t : TechformData,
        ([⟨"7", "RRL", some (mkRat 1 10), none, none, none, none, none, none,
            none⟩,
          ⟨"7", "RRL", some (mkRat 2 10), none, none, none, none, none, none,
            none⟩] : List TechformData).reverse.find? (probeHit (eKey e))
          = some t
        ∧ (⟨"7", "RRL", "f.xlsx", "S1", some (mkRat 1 25), some (mkRat 2 10),
            none, none, none, none, none, none, none⟩ : MergedData)
          = mergeMerge t e :=
  mergeData_duplicate_last_wins
    [⟨"7", "RRL", some (mkRat 1 10), none, none, none, none, none, none,
      none⟩,
     ⟨"7", "RRL", some (mkRat 2 10), none, none, none, none, none, none,
      none⟩]
    [⟨"7", "RRL", "f.xlsx", "S1", some (mkRat 1 25)⟩]
    ⟨"7", "RRL", "f.xlsx", "S1", some (mkRat 1 25), some (mkRat 2 10), none,
      none, none, none, none, none, none⟩
    (by decide)

end Techform
